import Mathlib

/-!
Verification of the merge engine of the Excel File Merger application
(`src/main.py`).  The engine parses two spreadsheets into tables, validates
the presence of the reference and target columns, deduplicates the secondary
table on the reference column (`drop_duplicates`, keep first), left-joins the
primary with the deduplicated secondary (`merge ... how='left'`, with pandas
`_x`/`_y` suffixing of overlapping non-key columns), computes total/matched/
unmatched statistics, serializes the merged table to a single-sheet
spreadsheet, and optionally shows the unmatched rows.

Tables are modelled as a column list plus a list of rows, each row an
association list from column name to cell value.  Cell values are scalars:
string, number, boolean, or the missing marker (pandas `NaN`).  Pandas
`merge` and `drop_duplicates` treat `NaN` keys as equal to each other, so
plain decidable equality on `Value` is the faithful key comparison.
-/

set_option autoImplicit false

namespace ExcelMerger

/-- A scalar cell value: string, number, boolean, or the missing marker
(`NaN` in pandas). -/
inductive Value where
  | str (s : String)
  | num (n : Int)
  | boolean (b : Bool)
  | missing
deriving DecidableEq, Repr

/-- A row is an association list from column name to cell value. -/
abbrev Row := List (String × Value)

/-- Cell access `row[c]`: the first entry for column `c`, or the missing
marker when the row has no such entry. -/
def getCell (r : Row) (c : String) : Value :=
  (r.lookup c).getD Value.missing

/-- A table: ordered column names and ordered rows (a pandas `DataFrame`). -/
structure Table where
  columns : List String
  rows : List Row
deriving DecidableEq, Repr

/-- Helper for `drop_duplicates`: walk the rows in order, keeping a row only
when its key value has not been seen before. -/
def dedupAux (key : String) (seen : List Value) : List Row → List Row
  | [] => []
  | r :: rs =>
    if getCell r key ∈ seen then dedupAux key seen rs
    else r :: dedupAux key (getCell r key :: seen) rs

/-- `df.drop_duplicates(subset=key)` (line 82 of `src/main.py`): keep, for
each distinct value of `key`, the first-encountered row in original order. -/
def Table.drop_duplicates (t : Table) (key : String) : Table :=
  ⟨t.columns, dedupAux key [] t.rows⟩

/-- Whether column `c` is an overlapping non-key column of the two frames:
pandas renames exactly these with the `_x`/`_y` suffixes during `merge`. -/
def overlapCol (left right : Table) (onCol : String) (c : String) : Bool :=
  decide (c ≠ onCol) && decide (c ∈ left.columns) && decide (c ∈ right.columns)

/-- The name a left-frame column gets in the merged frame. -/
def sufL (left right : Table) (onCol : String) (c : String) : String :=
  if overlapCol left right onCol c then c ++ "_x" else c

/-- The name a right-frame non-key column gets in the merged frame. -/
def sufR (left right : Table) (onCol : String) (c : String) : String :=
  if overlapCol left right onCol c then c ++ "_y" else c

/-- The non-key columns of the right frame, in frame order. -/
def rightDataCols (right : Table) (onCol : String) : List String :=
  right.columns.filter (fun c => decide (c ≠ onCol))

/-- The rows of the right frame whose key value equals that of the left row
`l`.  Key comparison is decidable equality of `Value`: exact-value,
type-sensitive (the number `5` and the string `"5"` differ). -/
def matchesFor (right : Table) (onCol : String) (l : Row) : List Row :=
  right.rows.filter (fun r => decide (getCell r onCol = getCell l onCol))

/-- One output row of the left join: the left row's cells (columns renamed by
`sufL`) followed by the right frame's non-key cells (renamed by `sufR`),
taken from the matching right row `m?`, or all missing when there is none. -/
def mkMergedRow (left right : Table) (onCol : String) (l : Row) (m? : Option Row) : Row :=
  l.map (fun p => (sufL left right onCol p.1, p.2)) ++
    (rightDataCols right onCol).map (fun c =>
      (sufR left right onCol c,
       match m? with
       | some m => getCell m c
       | none => Value.missing))

/-- The output rows produced for one left row: one per matching right row,
or a single all-missing-extension row when nothing matches. -/
def mergeRowFor (left right : Table) (onCol : String) (l : Row) : List Row :=
  match matchesFor right onCol l with
  | [] => [mkMergedRow left right onCol l none]
  | m :: ms => (m :: ms).map (fun r => mkMergedRow left right onCol l (some r))

/-- `left.merge(right, on=on, how='left')` (line 85 of `src/main.py`): every
left row is kept in order; matches by exact key equality; overlapping
non-key columns are suffixed `_x` (left) and `_y` (right). -/
def Table.merge (left right : Table) (onCol : String) : Table :=
  ⟨left.columns.map (sufL left right onCol) ++
     (rightDataCols right onCol).map (sufR left right onCol),
   left.rows.flatMap (mergeRowFor left right onCol)⟩

/-- The summary statistics shown after the merge. -/
structure MergeStats where
  totalRows : Nat
  matchedRows : Nat
  unmatchedRows : Nat
deriving DecidableEq, Repr

/-- `merged[c]` as a whole column: `none` models the pandas `KeyError` when
the column is absent. -/
def Table.getColumn? (t : Table) (c : String) : Option (List Value) :=
  if c ∈ t.columns then some (t.rows.map (fun r => getCell r c)) else none

/-- Lines 93–99 of `src/main.py`: total = `merged.shape[0]`, matched =
`merged[target].notna().sum()`, unmatched = `merged[target].isna().sum()`.
`none` when `merged[target]` raises `KeyError`. -/
def computeStats (merged : Table) (targetCol : String) : Option MergeStats :=
  match merged.getColumn? targetCol with
  | none => none
  | some vals =>
    some ⟨merged.rows.length,
          (vals.filter (fun v => decide (v ≠ Value.missing))).length,
          (vals.filter (fun v => decide (v = Value.missing))).length⟩

/-- The user-facing errors of one processing attempt: the explicit
missing-column messages of lines 67–77 (naming the column and the file), and
the pandas `KeyError` caught by the generic handler of line 128. -/
inductive AppError where
  | missingColumn (column : String) (table : String)
  | keyError (column : String)
deriving DecidableEq, Repr

/-- Lines 67–77 of `src/main.py`: check, in order, the reference column in
File A, the reference column in File B, the target column in File B; stop at
the first failure (`st.stop`). -/
def validate (dfA dfB : Table) (mergeCol targetCol : String) : Option AppError :=
  if mergeCol ∉ dfA.columns then some (.missingColumn mergeCol "File A")
  else if mergeCol ∉ dfB.columns then some (.missingColumn mergeCol "File B")
  else if targetCol ∉ dfB.columns then some (.missingColumn targetCol "File B")
  else none

/-- The whole merge pipeline of lines 67–99: validation, deduplication of
File B on the reference column, left join, statistics.  On any error no
merged table and no statistics are produced. -/
def runMerge (dfA dfB : Table) (mergeCol targetCol : String) :
    Except AppError (Table × MergeStats) :=
  match validate dfA dfB mergeCol targetCol with
  | some e => .error e
  | none =>
    let dfbClean := dfB.drop_duplicates mergeCol
    let merged := dfA.merge dfbClean mergeCol
    match computeStats merged targetCol with
    | none => .error (.keyError targetCol)
    | some stats => .ok (merged, stats)

/-- A sheet of an output spreadsheet: a name and a grid of cells. -/
structure Sheet where
  name : String
  cells : List (List Value)
deriving DecidableEq, Repr

/-- An output spreadsheet: a list of sheets. -/
structure Spreadsheet where
  sheets : List Sheet
deriving DecidableEq, Repr

/-- `t.to_excel(writer, index=idx, sheet_name=nm)`: one sheet, a header row
of the column names followed by the data rows in table order; when `idx` is
true an index column is prepended (row numbers, blank header cell). -/
def Table.to_excel (t : Table) (idx : Bool) (nm : String) : Spreadsheet :=
  ⟨[⟨nm,
     ((if idx then [Value.missing] else []) ++ t.columns.map Value.str) ::
       t.rows.enum.map (fun p =>
         (if idx then [Value.num (Int.ofNat p.1)] else []) ++ p.2.map Prod.snd)⟩]⟩

/-- Line 111 of `src/main.py`:
`merged.to_excel(writer, index=False, sheet_name='Merged_Data')`. -/
def serializeMerged (merged : Table) : Spreadsheet :=
  merged.to_excel false "Merged_Data"

/-- Lines 125–126 of `src/main.py`: the unmatched-records view.  Rows are
the merged rows whose target cell is missing; the selected column labels are
`[merge_column] + [c for c in merged.columns if c != target_column]`. -/
def unmatchedView (merged : Table) (mergeCol targetCol : String) : Table :=
  let cols := mergeCol :: merged.columns.filter (fun c => decide (c ≠ targetCol))
  ⟨cols,
   (merged.rows.filter (fun r => decide (getCell r targetCol = Value.missing))).map
     (fun r => cols.map (fun c => (c, getCell r c)))⟩

/-- Specification-style deduplication, following §4.1(3) of the spec: keep
the first row, remove every later row with the same key value, recurse. -/
def dedupSpec (key : String) : List Row → List Row
  | [] => []
  | r :: rs =>
    r :: dedupSpec key (rs.filter (fun r2 => decide (getCell r2 key ≠ getCell r key)))
termination_by l => l.length
decreasing_by
  simp only [List.length_cons]
  exact Nat.lt_succ_of_le (List.length_filter_le _ _)

/-! ### Example tables (the scenario of §8 of the spec) -/

/-- The primary table of the spec's worked scenario. -/
def exP : Table :=
  ⟨["email", "name"],
   [[("email", Value.str "a@x.com"), ("name", Value.str "A")],
    [("email", Value.str "b@x.com"), ("name", Value.str "B")]]⟩

/-- The secondary table of the spec's worked scenario (duplicate key
`a@x.com`, unmatched key `c@x.com`). -/
def exS : Table :=
  ⟨["email", "state"],
   [[("email", Value.str "a@x.com"), ("state", Value.str "CA")],
    [("email", Value.str "a@x.com"), ("state", Value.str "NY")],
    [("email", Value.str "c@x.com"), ("state", Value.str "TX")]]⟩

/-- An empty primary table with valid columns. -/
def exP0 : Table := ⟨["email", "name"], []⟩

/-- A primary table that already owns a `state` column (target collision). -/
def exA2 : Table :=
  ⟨["email", "state"], [[("email", Value.str "a@x.com"), ("state", Value.str "OLD")]]⟩

/-! ### Deduplication lemmas -/

/-- The keys of the rows surviving `dedupAux` are pairwise distinct and none
of them was already seen. -/
theorem dedupAux_keys_nodup (key : String) :
    ∀ (rows : List Row) (seen : List Value),
      ((dedupAux key seen rows).map (fun r => getCell r key)).Nodup ∧
        ∀ r ∈ dedupAux key seen rows, getCell r key ∉ seen := by
  intro rows
  induction rows with
  | nil => intro seen; simp [dedupAux]
  | cons r rs ih =>
    intro seen
    by_cases h : getCell r key ∈ seen
    · simpa [dedupAux, h] using ih seen
    · have ihk := ih (getCell r key :: seen)
      constructor
      · simp only [dedupAux, if_neg h, List.map_cons, List.nodup_cons]
        refine ⟨?_, ihk.1⟩
        intro hmem
        rcases List.mem_map.mp hmem with ⟨r2, hr2, hkey⟩
        exact (ihk.2 r2 hr2) (by rw [hkey]; exact List.mem_cons_self _ _)
      · intro r2 hr2
        simp only [dedupAux, if_neg h] at hr2
        rcases List.mem_cons.mp hr2 with he | ht
        · rw [he]; exact h
        · intro hs
          exact (ihk.2 r2 ht) (List.mem_cons_of_mem _ hs)

/-- `dedupAux` keeps a list unchanged when its keys are pairwise distinct
and none of them was seen before. -/
theorem dedupAux_eq_self (key : String) :
    ∀ (rows : List Row) (seen : List Value),
      (∀ r ∈ rows, getCell r key ∉ seen) →
      ((rows.map (fun r => getCell r key)).Nodup) →
      dedupAux key seen rows = rows := by
  intro rows
  induction rows with
  | nil => intro seen _ _; rfl
  | cons r rs ih =>
    intro seen hseen hnd
    have h : getCell r key ∉ seen := hseen r (List.mem_cons_self _ _)
    rcases List.nodup_cons.mp hnd with ⟨hk, hnd'⟩
    simp only [dedupAux, if_neg h]
    congr 1
    apply ih (getCell r key :: seen) ?_ hnd'
    intro r2 hr2
    intro hmem
    rcases List.mem_cons.mp hmem with he | ht
    · exact hk (List.mem_map.mpr ⟨r2, hr2, he⟩)
    · exact hseen r2 (List.mem_cons_of_mem _ hr2) ht

/-- Unfolding lemma for `dedupSpec` on a nonempty list. -/
theorem dedupSpec_cons (key : String) (r : Row) (rs : List Row) :
    dedupSpec key (r :: rs) =
      r :: dedupSpec key
        (rs.filter (fun r2 => decide (getCell r2 key ≠ getCell r key))) := by
  rw [dedupSpec.eq_def]

/-- `dedupAux` refines the keep-first recursion `dedupSpec`: running it with
a seen-set is the same as first discarding the rows whose key was seen. -/
theorem dedupAux_eq_dedupSpec (key : String) :
    ∀ (rows : List Row) (seen : List Value),
      dedupAux key seen rows =
        dedupSpec key (rows.filter (fun r => decide (getCell r key ∉ seen))) := by
  intro rows
  induction rows with
  | nil => intro seen; simp [dedupAux, dedupSpec]
  | cons r rs ih =>
    intro seen
    by_cases h : getCell r key ∈ seen
    · have hd : decide (getCell r key ∉ seen) = false := by simpa using h
      simp only [dedupAux, if_pos h, List.filter_cons, hd, if_neg Bool.false_ne_true]
      exact ih seen
    · have hd : decide (getCell r key ∉ seen) = true := by simpa using h
      simp only [dedupAux, if_neg h, List.filter_cons, hd, if_true]
      rw [dedupSpec_cons]
      congr 1
      rw [ih (getCell r key :: seen), List.filter_filter]
      congr 1
      apply List.filter_congr
      intro r2 _
      by_cases h1 : getCell r2 key = getCell r key <;>
        by_cases h2 : getCell r2 key ∈ seen <;> simp [h1, h2]

/-! ### Join lemmas -/

/-- In a list whose keys are pairwise distinct, at most one row carries any
given key value. -/
theorem length_filter_key_le_one (key : String) (v : Value) :
    ∀ rows : List Row,
      ((rows.map (fun r => getCell r key)).Nodup) →
      (rows.filter (fun r => decide (getCell r key = v))).length ≤ 1 := by
  intro rows
  induction rows with
  | nil => intro _; simp
  | cons r rs ih =>
    intro hnd
    rcases List.nodup_cons.mp hnd with ⟨hk, hnd'⟩
    by_cases h : getCell r key = v
    · have hnil : rs.filter (fun r2 => decide (getCell r2 key = v)) = [] := by
        apply List.filter_eq_nil_iff.mpr
        intro r2 hr2
        simp only [decide_eq_true_eq]
        intro hv
        exact hk (List.mem_map.mpr ⟨r2, hr2, by rw [hv]; exact h.symm⟩)
      simp [List.filter_cons, h, hnil]
    · simpa [List.filter_cons, h] using ih hnd'

/-- With a duplicate-free right table, each left row produces exactly the
single merged row built from the first (hence only) match. -/
theorem mergeRowFor_eq_head (left right : Table) (onCol : String) (l : Row)
    (hnd : ((right.rows.map (fun r => getCell r onCol)).Nodup)) :
    mergeRowFor left right onCol l =
      [mkMergedRow left right onCol l (matchesFor right onCol l).head?] := by
  have hle := length_filter_key_le_one onCol (getCell l onCol) right.rows hnd
  rw [mergeRowFor]
  cases hm : matchesFor right onCol l with
  | nil => simp
  | cons m ms =>
    have h1 : (matchesFor right onCol l).length ≤ 1 := hle
    rw [hm, List.length_cons] at h1
    have hms : ms = [] := List.length_eq_zero.mp (by omega)
    simp [hms]

/-- A `flatMap` of singleton-producing functions is a `map`. -/
theorem flatMap_eq_map_of_singleton {α β : Type} (f : α → List β) (g : α → β) :
    ∀ l : List α, (∀ a ∈ l, f a = [g a]) → l.flatMap f = l.map g := by
  intro l
  induction l with
  | nil => intro _; rfl
  | cons a as ih =>
    intro h
    simp only [List.flatMap_cons, List.map_cons, h a (List.mem_cons_self _ _)]
    rw [ih (fun b hb => h b (List.mem_cons_of_mem _ hb))]
    rfl

/-- With a duplicate-free right table, the left join emits exactly one row
per left row, in the left table's order. -/
theorem merge_rows_eq (left right : Table) (onCol : String)
    (hnd : ((right.rows.map (fun r => getCell r onCol)).Nodup)) :
    (left.merge right onCol).rows =
      left.rows.map
        (fun l => mkMergedRow left right onCol l (matchesFor right onCol l).head?) :=
  flatMap_eq_map_of_singleton _ _ _
    (fun l _ => mergeRowFor_eq_head left right onCol l hnd)

/-- The deduplicated secondary table has pairwise-distinct key values. -/
theorem dedup_rows_keys_nodup (S : Table) (key : String) :
    (((S.drop_duplicates key).rows.map (fun r => getCell r key)).Nodup) :=
  (dedupAux_keys_nodup key S.rows []).1

/-! ### Statistics lemmas -/

/-- A predicate and its negation partition the length of a list. -/
theorem length_filter_partition {α : Type} (p : α → Bool) :
    ∀ l : List α,
      (l.filter p).length + (l.filter (fun a => !(p a))).length = l.length := by
  intro l
  induction l with
  | nil => rfl
  | cons a as ih => cases hp : p a <;> simp [List.filter_cons, hp] <;> omega

/-- The missing / non-missing cells of a column partition it. -/
theorem length_filter_missing_partition (l : List Value) :
    (l.filter (fun v => decide (v ≠ Value.missing))).length +
      (l.filter (fun v => decide (v = Value.missing))).length = l.length := by
  have h := length_filter_partition (fun v => decide (v ≠ Value.missing)) l
  have he : l.filter (fun v => !(decide (v ≠ Value.missing))) =
      l.filter (fun v => decide (v = Value.missing)) := by
    apply List.filter_congr
    intro v _
    by_cases hv : v = Value.missing <;> simp [hv]
  rw [he] at h
  exact h

/-! ### Column lemmas -/

/-- Appending a nonempty string changes a string. -/
theorem append_ne_of_pos (s t : String) (ht : 0 < t.length) : s ++ t ≠ s := by
  intro he
  have hl := congrArg String.length he
  rw [String.length_append] at hl
  omega

/-- Reading an existing column succeeds and yields the cells in row order. -/
theorem getColumn_eq_of_mem (t : Table) (c : String) (h : c ∈ t.columns) :
    t.getColumn? c = some (t.rows.map (fun r => getCell r c)) := by
  simp [Table.getColumn?, h]

/-- When the target column is absent from the left frame (and is not the
join key), the merged frame owns it un-suffixed. -/
theorem target_mem_merge_columns (P S' : Table) (ref target : String)
    (h3 : target ∈ S'.columns) (h4 : target ∉ P.columns) (h5 : target ≠ ref) :
    target ∈ (P.merge S' ref).columns := by
  have hov : overlapCol P S' ref target = false := by
    simp [overlapCol, h4]
  have hmem : target ∈ rightDataCols S' ref := by
    simp [rightDataCols, List.mem_filter, h3, h5]
  have hsr : sufR P S' ref target = target := by
    simp [sufR, hov]
  show target ∈ _ ++ _
  exact List.mem_append.mpr (Or.inr (List.mem_map.mpr ⟨target, hmem, hsr⟩))

/-- When the secondary frame holds exactly the reference and target columns
(the `usecols` projection of line 50) and the target is fresh in the
primary, no suffixing happens at all: the merged columns are the primary's
followed by the target. -/
theorem merge_columns_no_collision (P S' : Table) (ref target : String)
    (hS : S'.columns = [ref, target]) (h4 : target ∉ P.columns)
    (h5 : target ≠ ref) :
    (P.merge S' ref).columns = P.columns ++ [target] := by
  have hrd : rightDataCols S' ref = [target] := by
    simp [rightDataCols, hS, h5]
  have hov : ∀ c ∈ P.columns, overlapCol P S' ref c = false := by
    intro c hc
    by_cases hcr : c = ref
    · simp [overlapCol, hcr]
    · by_cases hct : c = target
      · exact absurd (hct ▸ hc) h4
      · simp [overlapCol, hS, hcr, hct]
  have hL : P.columns.map (sufL P S' ref) = P.columns := by
    have h1 : ∀ c ∈ P.columns, sufL P S' ref c = c := by
      intro c hc
      simp [sufL, hov c hc]
    rw [List.map_congr_left h1]
    exact List.map_id P.columns
  have hsrt : sufR P S' ref target = target := by
    simp [sufR, overlapCol, h4]
  show P.columns.map (sufL P S' ref) ++ (rightDataCols S' ref).map (sufR P S' ref)
      = P.columns ++ [target]
  rw [hrd, hL, List.map_cons, List.map_nil, hsrt]

/-! ### Claim theorems -/

/-- C1: for every primary table and secondary table valid for the join
(reference column in both, target column in the secondary), left-joining the
primary with the deduplicated secondary yields exactly one output row per
primary row, in the primary's original order — so the merged table has
exactly the primary's row count, with no row dropped or duplicated even
when the secondary held duplicate join keys. -/
theorem leftJoin_preserves_primary_rowcount (P S : Table) (ref target : String)
    (h1 : ref ∈ P.columns) (h2 : ref ∈ S.columns) (h3 : target ∈ S.columns) :
    (P.merge (S.drop_duplicates ref) ref).rows =
      P.rows.map (fun l =>
        mkMergedRow P (S.drop_duplicates ref) ref l
          (matchesFor (S.drop_duplicates ref) ref l).head?) ∧
    (P.merge (S.drop_duplicates ref) ref).rows.length = P.rows.length := by
  have hrows := merge_rows_eq P (S.drop_duplicates ref) ref (dedup_rows_keys_nodup S ref)
  exact ⟨hrows, by rw [hrows, List.length_map]⟩

/-- Witness for C1 at the spec's worked scenario: the secondary has a
duplicate key and an unmatched key, yet the merged row count equals the
primary's. -/
theorem leftJoin_preserves_primary_rowcount_witness :
    (exP.merge (exS.drop_duplicates "email") "email").rows.length = exP.rows.length :=
  (leftJoin_preserves_primary_rowcount exP exS "email" "state"
    (by decide) (by decide) (by decide)).2

/-- C3: `drop_duplicates` keeps, for each distinct value of the reference
column, exactly the first-encountered row in original order and removes all
later rows with the same key (`dedupSpec` is literally that recursion), and
it leaves the columns unchanged.  A missing/empty reference cell is the
single key value `Value.missing`, so missing-key rows are deduplicated among
themselves the same way. -/
theorem drop_duplicates_keeps_first_per_key (t : Table) (key : String) :
    (t.drop_duplicates key).rows = dedupSpec key t.rows ∧
    (t.drop_duplicates key).columns = t.columns := by
  refine ⟨?_, rfl⟩
  have h := dedupAux_eq_dedupSpec key t.rows []
  have hf : t.rows.filter (fun r => decide (getCell r key ∉ ([] : List Value))) = t.rows := by
    apply List.filter_eq_self.mpr
    intro r _
    simp
  show dedupAux key [] t.rows = _
  rw [h, hf]

/-- C5: deduplication is idempotent — applying `drop_duplicates` to an
already-deduplicated table is a no-op. -/
theorem drop_duplicates_idempotent (t : Table) (key : String) :
    (t.drop_duplicates key).drop_duplicates key = t.drop_duplicates key := by
  have h : dedupAux key [] (dedupAux key [] t.rows) = dedupAux key [] t.rows :=
    dedupAux_eq_self key _ [] (by simp) (dedupAux_keys_nodup key t.rows []).1
  simp [Table.drop_duplicates, h]

/-- C2: validation checks the three column-presence conditions in a fixed
order — reference in File A, reference in File B, target in File B —
stopping at the first failure; each failure surfaces as the missing-column
error naming the offending column and table, and the pipeline then returns
that error with no merged table and no statistics (so no deduplication or
join result is ever produced); when all three hold, validation passes. -/
theorem validation_order_and_shortcircuit (dfA dfB : Table) (mc tc : String) :
    (mc ∉ dfA.columns →
      runMerge dfA dfB mc tc = .error (.missingColumn mc "File A")) ∧
    (mc ∈ dfA.columns → mc ∉ dfB.columns →
      runMerge dfA dfB mc tc = .error (.missingColumn mc "File B")) ∧
    (mc ∈ dfA.columns → mc ∈ dfB.columns → tc ∉ dfB.columns →
      runMerge dfA dfB mc tc = .error (.missingColumn tc "File B")) ∧
    (mc ∈ dfA.columns → mc ∈ dfB.columns → tc ∈ dfB.columns →
      validate dfA dfB mc tc = none) := by
  refine ⟨?_, ?_, ?_, ?_⟩
  · intro h
    simp [runMerge, validate, h]
  · intro h1 h2
    simp [runMerge, validate, h1, h2]
  · intro h1 h2 h3
    simp [runMerge, validate, h1, h2, h3]
  · intro h1 h2 h3
    simp [validate, h1, h2, h3]

/-- Witness for C2: each of the three failures at a concrete pair of
tables, in the checked order. -/
theorem validation_order_and_shortcircuit_witness :
    runMerge ⟨["name"], []⟩ ⟨["email", "state"], []⟩ "email" "state"
        = .error (.missingColumn "email" "File A") ∧
    runMerge ⟨["email"], []⟩ ⟨["state"], []⟩ "email" "state"
        = .error (.missingColumn "email" "File B") ∧
    runMerge ⟨["email"], []⟩ ⟨["email"], []⟩ "email" "state"
        = .error (.missingColumn "state" "File B") :=
  ⟨(validation_order_and_shortcircuit ⟨["name"], []⟩ ⟨["email", "state"], []⟩
      "email" "state").1 (by decide),
   (validation_order_and_shortcircuit ⟨["email"], []⟩ ⟨["state"], []⟩
      "email" "state").2.1 (by decide) (by decide),
   (validation_order_and_shortcircuit ⟨["email"], []⟩ ⟨["email"], []⟩
      "email" "state").2.2.1 (by decide) (by decide) (by decide)⟩

/-- C4: for every successfully merged table the statistics satisfy
`matchedRows` = number of rows whose new target cell is not missing,
`unmatchedRows` = number of rows whose new target cell is missing, and
`totalRows = matchedRows + unmatchedRows = ` the primary's row count. -/
theorem merge_stats_invariant (P S : Table) (ref target : String)
    (h1 : ref ∈ P.columns) (h2 : ref ∈ S.columns) (h3 : target ∈ S.columns)
    (h4 : target ∉ P.columns) (h5 : target ≠ ref) :
    ∃ st : MergeStats,
      runMerge P S ref target =
        .ok (P.merge (S.drop_duplicates ref) ref, st) ∧
      st.matchedRows =
        (((P.merge (S.drop_duplicates ref) ref).rows.map
            (fun r => getCell r target)).filter
          (fun v => decide (v ≠ Value.missing))).length ∧
      st.unmatchedRows =
        (((P.merge (S.drop_duplicates ref) ref).rows.map
            (fun r => getCell r target)).filter
          (fun v => decide (v = Value.missing))).length ∧
      st.totalRows = st.matchedRows + st.unmatchedRows ∧
      st.totalRows = P.rows.length := by
  have h3' : target ∈ (S.drop_duplicates ref).columns := h3
  have hmem : target ∈ (P.merge (S.drop_duplicates ref) ref).columns :=
    target_mem_merge_columns P _ ref target h3' h4 h5
  have hval : validate P S ref target = none := by simp [validate, h1, h2, h3]
  have hcol := getColumn_eq_of_mem _ target hmem
  have hrows := merge_rows_eq P (S.drop_duplicates ref) ref (dedup_rows_keys_nodup S ref)
  refine ⟨⟨(P.merge (S.drop_duplicates ref) ref).rows.length,
           (((P.merge (S.drop_duplicates ref) ref).rows.map
               (fun r => getCell r target)).filter
             (fun v => decide (v ≠ Value.missing))).length,
           (((P.merge (S.drop_duplicates ref) ref).rows.map
               (fun r => getCell r target)).filter
             (fun v => decide (v = Value.missing))).length⟩,
         ?_, rfl, rfl, ?_, ?_⟩
  · simp [runMerge, hval, computeStats, hcol]
  · have hp := length_filter_missing_partition
      ((P.merge (S.drop_duplicates ref) ref).rows.map (fun r => getCell r target))
    rw [List.length_map] at hp
    dsimp only
    omega
  · rw [hrows, List.length_map]

/-- Witness for C4 at the spec's worked scenario. -/
theorem merge_stats_invariant_witness :
    ∃ st : MergeStats,
      runMerge exP exS "email" "state" =
        .ok (exP.merge (exS.drop_duplicates "email") "email", st) ∧
      st.matchedRows =
        (((exP.merge (exS.drop_duplicates "email") "email").rows.map
            (fun r => getCell r "state")).filter
          (fun v => decide (v ≠ Value.missing))).length ∧
      st.unmatchedRows =
        (((exP.merge (exS.drop_duplicates "email") "email").rows.map
            (fun r => getCell r "state")).filter
          (fun v => decide (v = Value.missing))).length ∧
      st.totalRows = st.matchedRows + st.unmatchedRows ∧
      st.totalRows = exP.rows.length :=
  merge_stats_invariant exP exS "email" "state"
    (by decide) (by decide) (by decide) (by decide) (by decide)

/-- C6: the join-key comparison of the left join is exact-value equality on
the cell values — a secondary row matches a primary row exactly when the
two key cells are equal as `Value`s — and it is type-sensitive: the number
`5` and the string `"5"` never match (no coercion), while equal numbers and
equal strings do. -/
theorem join_key_equality_type_sensitive :
    (∀ (right : Table) (onCol : String) (l r : Row),
        r ∈ matchesFor right onCol l ↔
          r ∈ right.rows ∧ getCell r onCol = getCell l onCol) ∧
    Value.num 5 ≠ Value.str "5" ∧
    (Table.mk ["k"] [[("k", Value.num 5)]]).merge
        (Table.mk ["k", "t"] [[("k", Value.str "5"), ("t", Value.str "CA")]]) "k"
      = Table.mk ["k", "t"] [[("k", Value.num 5), ("t", Value.missing)]] ∧
    (Table.mk ["k"] [[("k", Value.num 5)]]).merge
        (Table.mk ["k", "t"] [[("k", Value.num 5), ("t", Value.str "CA")]]) "k"
      = Table.mk ["k", "t"] [[("k", Value.num 5), ("t", Value.str "CA")]] ∧
    (Table.mk ["k"] [[("k", Value.str "5")]]).merge
        (Table.mk ["k", "t"] [[("k", Value.str "5"), ("t", Value.str "CA")]]) "k"
      = Table.mk ["k", "t"] [[("k", Value.str "5"), ("t", Value.str "CA")]] := by
  refine ⟨?_, by decide, by decide, by decide, by decide⟩
  intro right onCol l r
  simp [matchesFor, List.mem_filter]

/-- C7: with an empty primary table (0 rows, valid columns) and any valid
secondary table, the pipeline succeeds with no error: the merged table has 0
rows and the statistics are all zero. -/
theorem empty_primary_merge (P S : Table) (ref target : String)
    (h0 : P.rows = []) (h1 : ref ∈ P.columns) (h2 : ref ∈ S.columns)
    (h3 : target ∈ S.columns) (h4 : target ∉ P.columns) (h5 : target ≠ ref) :
    runMerge P S ref target =
      .ok (P.merge (S.drop_duplicates ref) ref, ⟨0, 0, 0⟩) ∧
    (P.merge (S.drop_duplicates ref) ref).rows = [] := by
  have hrows : (P.merge (S.drop_duplicates ref) ref).rows = [] := by
    show P.rows.flatMap _ = []
    rw [h0]
    rfl
  have h3' : target ∈ (S.drop_duplicates ref).columns := h3
  have hmem : target ∈ (P.merge (S.drop_duplicates ref) ref).columns :=
    target_mem_merge_columns P _ ref target h3' h4 h5
  have hval : validate P S ref target = none := by simp [validate, h1, h2, h3]
  have hcol := getColumn_eq_of_mem _ target hmem
  refine ⟨?_, hrows⟩
  simp [runMerge, hval, computeStats, hcol, hrows]

/-- Witness for C7: the empty primary against the scenario secondary. -/
theorem empty_primary_merge_witness :
    runMerge exP0 exS "email" "state" =
      .ok (exP0.merge (exS.drop_duplicates "email") "email", ⟨0, 0, 0⟩) ∧
    (exP0.merge (exS.drop_duplicates "email") "email").rows = [] :=
  empty_primary_merge exP0 exS "email" "state"
    (by decide) (by decide) (by decide) (by decide) (by decide) (by decide)

/-- The enumeration added by `to_excel` for the index column disappears when
the index is not written: only the cell values remain, in row order. -/
theorem enumFrom_map_cells (n : Nat) (l : List Row) :
    (List.enumFrom n l).map (fun p => p.2.map Prod.snd) =
      l.map (fun r => r.map Prod.snd) := by
  induction l generalizing n with
  | nil => rfl
  | cons a as ih => simp [List.enumFrom, ih]

/-- C8: serialization writes the merged table as a spreadsheet with exactly
one sheet, named `Merged_Data`, whose cells are the header row (the column
names) followed by the data rows in table order, with no index column. -/
theorem serialize_single_sheet (t : Table) :
    (serializeMerged t).sheets =
      [⟨"Merged_Data",
        (t.columns.map Value.str) :: t.rows.map (fun r => r.map Prod.snd)⟩] := by
  simp only [serializeMerged, Table.to_excel, Bool.false_eq_true, if_false,
    List.nil_append, List.enum]
  rw [enumFrom_map_cells]

/-- C9 counterexample: in the spec's worked scenario the unmatched-records
view does NOT show each primary column once — the selection
`[merge_column] + [c for c in merged.columns if c != target_column]` lists
the reference column twice, so its columns are `email, email, name` rather
than the primary's `email, name`. -/
theorem unmatchedView_duplicate_column_cex :
    (unmatchedView (exP.merge (exS.drop_duplicates "email") "email")
        "email" "state").columns = ["email", "email", "name"] ∧
    ¬ (unmatchedView (exP.merge (exS.drop_duplicates "email") "email")
        "email" "state").columns.Nodup ∧
    (unmatchedView (exP.merge (exS.drop_duplicates "email") "email")
        "email" "state").columns ≠ ["email", "name"] :=
  ⟨by decide, by decide, by decide⟩

/-- C9 (amended): the unmatched-rows output contains exactly the merged
rows whose target cell is missing, with columns the reference column
followed by every primary column except the target — so the reference
column appears twice, once from the explicit prefix and once among the
primary columns. -/
theorem unmatchedView_amended (P S : Table) (ref target : String)
    (h1 : ref ∈ P.columns) (hS : S.columns = [ref, target])
    (h4 : target ∉ P.columns) (h5 : target ≠ ref) :
    (unmatchedView (P.merge (S.drop_duplicates ref) ref) ref target).columns
        = ref :: P.columns ∧
    (unmatchedView (P.merge (S.drop_duplicates ref) ref) ref target).rows
        = ((P.merge (S.drop_duplicates ref) ref).rows.filter
            (fun r => decide (getCell r target = Value.missing))).map
          (fun r => (ref :: P.columns).map (fun c => (c, getCell r c))) := by
  have hS' : (S.drop_duplicates ref).columns = [ref, target] := hS
  have hcols : (P.merge (S.drop_duplicates ref) ref).columns = P.columns ++ [target] :=
    merge_columns_no_collision P _ ref target hS' h4 h5
  have hfilter : (P.merge (S.drop_duplicates ref) ref).columns.filter
      (fun c => decide (c ≠ target)) = P.columns := by
    rw [hcols, List.filter_append]
    have ha : P.columns.filter (fun c => decide (c ≠ target)) = P.columns := by
      apply List.filter_eq_self.mpr
      intro c hc
      simp only [decide_eq_true_eq]
      intro he
      exact h4 (he ▸ hc)
    have hb : ([target] : List String).filter (fun c => decide (c ≠ target)) = [] := by
      simp
    rw [ha, hb, List.append_nil]
  constructor
  · simp only [unmatchedView]
    rw [hfilter]
  · simp only [unmatchedView]
    rw [hfilter]

/-- Witness for the amended C9 at the spec's worked scenario. -/
theorem unmatchedView_amended_witness :
    (unmatchedView (exP.merge (exS.drop_duplicates "email") "email")
        "email" "state").columns = "email" :: exP.columns ∧
    (unmatchedView (exP.merge (exS.drop_duplicates "email") "email")
        "email" "state").rows
      = ((exP.merge (exS.drop_duplicates "email") "email").rows.filter
          (fun r => decide (getCell r "state" = Value.missing))).map
        (fun r => ("email" :: exP.columns).map (fun c => (c, getCell r c))) :=
  unmatchedView_amended exP exS "email" "state"
    (by decide) (by decide) (by decide) (by decide)

/-- C10: when the primary table already owns a column named like the
target (and File B carries exactly the reference and target columns, as the
`usecols` load guarantees), the join renames the colliding columns with the
`_x`/`_y` suffixes, the expected target column is absent from the merged
frame, the statistics lookup fails with a `KeyError`, and the invocation
produces that error — no merged output and no statistics. -/
theorem target_collision_keyError (A B : Table) (mc tc : String)
    (hmcA : mc ∈ A.columns) (htcA : tc ∈ A.columns)
    (hB : B.columns = [mc, tc]) (hne : tc ≠ mc) :
    tc ∉ (A.merge (B.drop_duplicates mc) mc).columns ∧
    (tc ++ "_x") ∈ (A.merge (B.drop_duplicates mc) mc).columns ∧
    (tc ++ "_y") ∈ (A.merge (B.drop_duplicates mc) mc).columns ∧
    runMerge A B mc tc = .error (.keyError tc) := by
  have hB' : (B.drop_duplicates mc).columns = [mc, tc] := hB
  have hovt : overlapCol A (B.drop_duplicates mc) mc tc = true := by
    simp [overlapCol, hB', hne, htcA]
  have hrd : rightDataCols (B.drop_duplicates mc) mc = [tc] := by
    simp [rightDataCols, hB', hne]
  have hmapR : (rightDataCols (B.drop_duplicates mc) mc).map
      (sufR A (B.drop_duplicates mc) mc) = [tc ++ "_y"] := by
    rw [hrd]
    simp [sufR, hovt]
  have habs : tc ∉ (A.merge (B.drop_duplicates mc) mc).columns := by
    intro hmem
    rcases List.mem_append.mp hmem with hl | hr
    · rcases List.mem_map.mp hl with ⟨c, hcA, hc⟩
      by_cases hov : overlapCol A (B.drop_duplicates mc) mc c = true
      · have hparts := hov
        simp only [overlapCol, Bool.and_eq_true, decide_eq_true_eq] at hparts
        have hcB : c ∈ ([mc, tc] : List String) := hB' ▸ hparts.2
        have hct : c = tc := by
          rcases List.mem_cons.mp hcB with he | ht
          · exact absurd he hparts.1.1
          · simpa using ht
        simp only [sufL, hov, if_true] at hc
        rw [hct] at hc
        exact append_ne_of_pos tc "_x" (by decide) hc
      · simp [sufL, hov] at hc
        rw [hc] at hov
        exact hov hovt
    · rw [hmapR] at hr
      have : tc = tc ++ "_y" := by simpa using hr
      exact append_ne_of_pos tc "_y" (by decide) this.symm
  have hvx : (tc ++ "_x") ∈ (A.merge (B.drop_duplicates mc) mc).columns := by
    apply List.mem_append.mpr
    exact Or.inl (List.mem_map.mpr ⟨tc, htcA, by simp [sufL, hovt]⟩)
  have hvy : (tc ++ "_y") ∈ (A.merge (B.drop_duplicates mc) mc).columns := by
    apply List.mem_append.mpr
    apply Or.inr
    rw [hmapR]
    simp
  have hval : validate A B mc tc = none := by
    have h2 : mc ∈ B.columns := by rw [hB]; exact List.mem_cons_self _ _
    have h3 : tc ∈ B.columns := by rw [hB]; simp
    simp [validate, hmcA, h2, h3]
  have hnone : (A.merge (B.drop_duplicates mc) mc).getColumn? tc = none := by
    simp [Table.getColumn?, habs]
  refine ⟨habs, hvx, hvy, ?_⟩
  simp [runMerge, hval, computeStats, hnone]

/-- Witness for C10: a primary that already has a `state` column collides
with the target; the pipeline errors and the merged frame holds `state_x`
and `state_y` instead of `state`. -/
theorem target_collision_keyError_witness :
    "state" ∉ (exA2.merge (exS.drop_duplicates "email") "email").columns ∧
    ("state" ++ "_x") ∈ (exA2.merge (exS.drop_duplicates "email") "email").columns ∧
    ("state" ++ "_y") ∈ (exA2.merge (exS.drop_duplicates "email") "email").columns ∧
    runMerge exA2 exS "email" "state" = .error (.keyError "state") :=
  target_collision_keyError exA2 exS "email" "state"
    (by decide) (by decide) (by decide) (by decide)

end ExcelMerger
